import Mathlib

/-!
Verification of the shape-broadcasting test-case generator
(`tensorflow_probability/python/internal/hypothesis_testlib.py`).

The Python code draws random values from Hypothesis strategies.  We embed
each strategy as a deterministic function of an explicit *oracle*: every
`draw(...)` in the source becomes an extra argument holding the drawn value,
and the range restrictions that Hypothesis guarantees (`hps.integers(lo, hi)`
draws a value in `[lo, hi]`, etc.) become hypotheses of the theorems
(collected in `validChoices` and similar predicates).  Shapes
(`tf.TensorShape`, fully defined) are embedded as `List Nat` of axis sizes.
-/

/-- Broadcast of two axis sizes, as in NumPy/TensorFlow: equal sizes
broadcast to themselves, a size of 1 broadcasts to the other size, anything
else is an error (`none`). -/
def bcastDim (a b : Nat) : Option Nat :=
  if a = b then some a
  else if a = 1 then some b
  else if b = 1 then some a
  else none

/-- Broadcast of two shapes given in *reversed* axis order (index 0 is the
trailing axis); missing leading axes are treated as size 1. -/
def bcastRev : List Nat → List Nat → Option (List Nat)
  | [], ys => some ys
  | x :: xs, [] => some (x :: xs)
  | x :: xs, y :: ys =>
    match bcastDim x y, bcastRev xs ys with
    | some d, some ds => some (d :: ds)
    | _, _ => none

/-- `tf.broadcast_static_shape` on fully-defined shapes: align the two shapes
at their trailing axes and combine axis-wise with `bcastDim`; `none` models
the `InvalidArgumentError` TensorFlow raises on incompatible shapes. -/
def bcast (a b : List Nat) : Option (List Nat) :=
  (bcastRev a.reverse b.reverse).map List.reverse

/-- Broadcast of a whole sequence of shapes, left to right, starting from the
rank-0 shape `init`. -/
def bcastFold (init : List Nat) (shapes : List (List Nat)) : Option (List Nat) :=
  shapes.foldlM bcast init

/-- `a` is a *subshape* of `t` (both in reversed axis order): `a` is at most
as long as `t` and every axis of `a` is 1 or the corresponding axis of `t`.
Every shape produced by `broadcasting_shapes` has this property relative to
the target shape. -/
def SubRev : List Nat → List Nat → Prop
  | [], _ => True
  | _ :: _, [] => False
  | a :: as_, t :: ts => (a = 1 ∨ a = t) ∧ SubRev as_ ts

instance : ∀ a t, Decidable (SubRev a t)
  | [], _ => isTrue trivial
  | _ :: _, [] => isFalse id
  | a :: as_, t :: ts =>
    have : Decidable (SubRev as_ ts) := instDecidableSubRev as_ ts
    inferInstanceAs (Decidable (_ ∧ _))

/-- Executable form of the subshape property, stated on shapes in ordinary
(leading-first) axis order, aligned at the trailing end. -/
def isSubshapeOf (s target : List Nat) : Bool :=
  decide (SubRev s.reverse target.reverse)

/-- `full_rank_current` of the source (line 627): the broadcast of
`current_shape` with `[1] * target_rank`, i.e. `current_shape` padded with
leading 1 axes up to `target_rank`.  `full_rank_current_spec` below proves
this equals the `tf.broadcast_static_shape` call the source makes. -/
def full_rank_current (target_rank : Nat) (current : List Nat) : List Nat :=
  List.replicate (target_rank - current.length) 1 ++ current

/-- `axis_is_mismatched` of the source (lines 632-635): for each target axis,
whether the full-rank extension of `current_shape` differs from the target
there. -/
def axis_is_mismatched (target current : List Nat) : List Bool :=
  List.zipWith (fun a b => a != b) (full_rank_current target.length current) target

/-- Python's `list.index(True)`: index of the first `true` (the source only
applies it to lists ending in an appended `True`, so it always succeeds;
on an all-`false` list we return the length, which that appended `True`
makes unreachable). -/
def index_of_true : List Bool → Nat
  | [] => 0
  | true :: _ => 0
  | false :: l => index_of_true l + 1

/-- `min_rank` computed in the `is_last` branch of
`_compute_rank_and_fullsize_reqd` (lines 636-641): `target_rank`, reduced —
only when `current_shape` already has the full target rank — by the index of
the first mismatched axis. -/
def last_min_rank (target current : List Nat) : Nat :=
  let target_rank := target.length
  if current.length = target_rank then
    target_rank - index_of_true (axis_is_mismatched target current ++ [true])
  else target_rank

/-- `_compute_rank_and_fullsize_reqd` (lines 607-650).  The Hypothesis draw
`hps.integers(...)` is replaced by the oracle value `rank_draw`; the range it
is drawn from (`[min_rank, target_rank]` for the last shape, `[0,
target_rank]` otherwise) becomes a hypothesis of the theorems.  Returns the
drawn rank and the per-axis full-size-required flags. -/
def compute_rank_and_fullsize_reqd (target current : List Nat) (is_last : Bool)
    (rank_draw : Nat) : Nat × List Bool :=
  if is_last then
    (rank_draw, (axis_is_mismatched target current).drop (target.length - rank_draw))
  else
    (rank_draw, List.replicate rank_draw false)

/-- The axis-masking loop of `broadcasting_shapes` (lines 696-699): walk the
trailing slice of the target shape together with the force flags; where the
axis is not forced full-size and the corresponding boolean draw (`ones`)
comes up true, replace the axis by 1. -/
def mask_next_shape : List Nat → List Bool → List Bool → List Nat
  | s :: ss, f :: fs, b :: bs =>
    (if !f && b then 1 else s) :: mask_next_shape ss fs bs
  | ss, _, _ => ss

/-- One oracle record per generated shape: the drawn rank and the per-axis
boolean draws used by the masking loop. -/
abbrev ShapeChoice := Nat × List Bool

/-- One iteration's shape: lines 690-700 of the source (rank and force flags
from `_compute_rank_and_fullsize_reqd`, then the trailing `next_rank` axes of
the target, masked to 1 where allowed and drawn). -/
def next_shape_of (target current : List Nat) (is_last : Bool) (c : ShapeChoice) :
    List Nat :=
  let rf := compute_rank_and_fullsize_reqd target current is_last c.1
  mask_next_shape (target.drop (target.length - rf.1)) rf.2 c.2

/-- The main loop of `broadcasting_shapes` (lines 687-703): one iteration per
oracle record, the last one flagged `is_last`; `current_shape` accumulates the
broadcast of the shapes drawn so far. -/
def bs_loop (target : List Nat) : List Nat → List ShapeChoice → Option (List (List Nat))
  | _, [] => some []
  | current, c :: cs =>
    let ns := next_shape_of target current cs.isEmpty c
    match bcast current ns with
    | none => none
    | some current2 =>
      match bs_loop target current2 cs with
      | none => none
      | some rest => some (ns :: rest)

/-- Error message raised by `broadcasting_shapes` when `n = 1` without
`no_error_n_eq_1` (lines 681-684). -/
def n_eq_1_error_msg : String :=
  "broadcasting_shapes(shp, n=1) is just shp. Did you want broadcast_compatible_shape?"

/-- `broadcasting_shapes(target_shape, n, no_error_n_eq_1)` (lines 661-703),
with the Hypothesis draws supplied by `choices` (one record per shape, so a
faithful run has `choices.length = n`).  `Except.error` models the raised
`ValueError`; the TensorFlow broadcast-failure case (unreachable, see
`bs_loop_isSome`) is a distinct error string. -/
def broadcasting_shapes (target : List Nat) (n : Nat) (no_error_n_eq_1 : Bool)
    (choices : List ShapeChoice) : Except String (List (List Nat)) :=
  if n = 1 && !no_error_n_eq_1 then
    .error n_eq_1_error_msg
  else
    match bs_loop target [] choices with
    | some r => .ok r
    | none => .error "broadcast failed"

/-- Validity of an oracle for `broadcasting_shapes`: each drawn rank lies in
the range Hypothesis draws it from (`[0, target_rank]` for non-last shapes,
`[min_rank, target_rank]` for the last one), threading `current_shape`
exactly as the loop does. -/
def validChoices (target : List Nat) : List Nat → List ShapeChoice → Bool
  | _, [] => true
  | current, c :: cs =>
    (if cs.isEmpty then decide (last_min_rank target current ≤ c.1) else true) &&
    decide (c.1 ≤ target.length) &&
    (match bcast current (next_shape_of target current cs.isEmpty c) with
     | some current2 => validChoices target current2 cs
     | none => false)

/-! ### Basic list and broadcast lemmas -/

lemma getD_reverse_eq {α : Type} (l : List α) (i : Nat) (d : α) (h : i < l.length) :
    l.reverse.getD i d = l.getD (l.length - 1 - i) d := by
  rw [List.getD_eq_getElem _ _ (by simpa using h),
    List.getD_eq_getElem _ _ (by omega), List.getElem_reverse]

lemma getD_drop_eq {α : Type} (l : List α) (k i : Nat) (d : α) (h : k + i < l.length) :
    (l.drop k).getD i d = l.getD (k + i) d := by
  rw [List.getD_eq_getElem _ _ (by simp; omega), List.getD_eq_getElem _ _ h]
  simp [List.getElem_drop]

lemma getD_zipWith_eq {α β γ : Type} (f : α → β → γ) (a : List α) (b : List β)
    (i : Nat) (da : α) (db : β) (dc : γ) (ha : i < a.length) (hb : i < b.length) :
    (List.zipWith f a b).getD i dc = f (a.getD i da) (b.getD i db) := by
  rw [List.getD_eq_getElem _ _ (by simp; omega), List.getD_eq_getElem _ _ ha,
    List.getD_eq_getElem _ _ hb, List.getElem_zipWith]

lemma SubRev.length_le : ∀ {a t : List Nat}, SubRev a t → a.length ≤ t.length
  | [], _, _ => by simp
  | _ :: _, [], h => h.elim
  | _ :: as_, _ :: ts, h => by
    simpa using Nat.succ_le_succ (SubRev.length_le (a := as_) (t := ts) h.2)

lemma SubRev.getD_mem : ∀ {a t : List Nat}, SubRev a t → ∀ i, i < a.length →
    a.getD i 1 = 1 ∨ a.getD i 1 = t.getD i 1
  | [], _, _, i, hi => by simp at hi
  | _ :: _, [], h, _, _ => h.elim
  | a :: as_, t :: ts, h, 0, _ => by simpa using h.1
  | a :: as_, t :: ts, h, i + 1, hi => by
    simpa using SubRev.getD_mem (a := as_) (t := ts) h.2 i (by simpa using hi)

lemma subRev_of_getD : ∀ (a t : List Nat), a.length ≤ t.length →
    (∀ i, i < a.length → a.getD i 1 = 1 ∨ a.getD i 1 = t.getD i 1) → SubRev a t
  | [], _, _, _ => trivial
  | _ :: _, [], hl, _ => by simp at hl
  | a :: as_, t :: ts, hl, hp => by
    refine ⟨by simpa using hp 0 (by simp), ?_⟩
    exact subRev_of_getD as_ ts (by simpa using hl) fun i hi => by
      simpa using hp (i + 1) (by simpa using hi)

lemma bcastDim_sub {t a b : Nat} (ha : a = 1 ∨ a = t) (hb : b = 1 ∨ b = t) :
    ∃ d, bcastDim a b = some d ∧ (d = 1 ∨ d = t) := by
  rcases ha with rfl | rfl <;> rcases hb with rfl | rfl <;>
    unfold bcastDim <;> split_ifs <;> simp_all

lemma bcastDim_target_left {t b : Nat} (hb : b = 1 ∨ b = t) :
    bcastDim t b = some t := by
  rcases hb with rfl | rfl <;> unfold bcastDim <;> split_ifs <;> simp_all

lemma bcastDim_target_right {t a : Nat} (ha : a = 1 ∨ a = t) :
    bcastDim a t = some t := by
  rcases ha with rfl | rfl <;> unfold bcastDim <;> split_ifs <;> simp_all

lemma bcastRev_subRev : ∀ (t a b : List Nat), SubRev a t → SubRev b t →
    ∃ d, bcastRev a b = some d ∧ SubRev d t ∧ d.length = max a.length b.length
  | _, [], b, _, hb => ⟨b, rfl, hb, by simp⟩
  | _, a :: as_, [], ha, _ => ⟨a :: as_, rfl, ha, by simp⟩
  | [], _ :: _, _ :: _, ha, _ => ha.elim
  | t :: ts, a :: as_, b :: bs, ha, hb => by
    obtain ⟨d0, hd0, hd0m⟩ := bcastDim_sub ha.1 hb.1
    obtain ⟨ds, hds, hdss, hdsl⟩ := bcastRev_subRev ts as_ bs ha.2 hb.2
    refine ⟨d0 :: ds, ?_, ⟨hd0m, hdss⟩, ?_⟩
    · simp [bcastRev, hd0, hds]
    · simpa [hdsl] using (Nat.succ_max_succ as_.length bs.length).symm

lemma bcastRev_replicate_one : ∀ (a : List Nat) (k : Nat),
    bcastRev a (List.replicate k 1) = some (a ++ List.replicate (k - a.length) 1)
  | [], k => by simp [bcastRev]
  | x :: xs, 0 => by simp [bcastRev]
  | x :: xs, k + 1 => by
    have hx : bcastDim x 1 = some x := by
      unfold bcastDim; split_ifs <;> simp_all
    simp [List.replicate_succ, bcastRev, hx, bcastRev_replicate_one xs k]

/-- The `full_rank_current` definition agrees with the
`tf.broadcast_static_shape(current_shape, tf.TensorShape([1]*target_rank))`
computed by the source (lines 627-628). -/
theorem full_rank_current_spec (target_rank : Nat) (current : List Nat) :
    bcast current (List.replicate target_rank 1) = some (full_rank_current target_rank current) := by
  simp [bcast, List.reverse_replicate, bcastRev_replicate_one, full_rank_current]

lemma full_rank_current_reverse (k : Nat) (current : List Nat) :
    (full_rank_current k current).reverse =
      current.reverse ++ List.replicate (k - current.length) 1 := by
  simp [full_rank_current, List.reverse_replicate]

lemma full_rank_current_length (k : Nat) (current : List Nat) (h : current.length ≤ k) :
    (full_rank_current k current).length = k := by
  simp [full_rank_current]; omega

lemma mask_next_shape_length : ∀ (s : List Nat) (f b : List Bool),
    (mask_next_shape s f b).length = s.length
  | [], f, b => by cases f <;> cases b <;> rfl
  | _ :: _, [], b => rfl
  | _ :: _, _ :: _, [] => rfl
  | _ :: ss, _ :: fs, _ :: bs => by
    simpa [mask_next_shape] using mask_next_shape_length ss fs bs

lemma mask_next_shape_getD : ∀ (s : List Nat) (f b : List Bool) (i : Nat),
    i < s.length →
    (mask_next_shape s f b).getD i 1 = s.getD i 1 ∨
      ((mask_next_shape s f b).getD i 1 = 1 ∧ f.getD i true = false)
  | [], _, _, i, hi => by simp at hi
  | _ :: _, [], _, i, hi => Or.inl rfl
  | _ :: _, _ :: _, [], i, hi => Or.inl rfl
  | s0 :: ss, f0 :: fs, b0 :: bs, 0, _ => by
    by_cases hf : (!f0 && b0) = true
    · right
      refine ⟨by simp [mask_next_shape, hf], ?_⟩
      have : f0 = false := by
        rcases f0 <;> simp_all
      simp [this]
    · left; simp [mask_next_shape, hf]
  | s0 :: ss, f0 :: fs, b0 :: bs, i + 1, hi => by
    have := mask_next_shape_getD ss fs bs i (by simpa using hi)
    simpa [mask_next_shape] using this

lemma index_of_true_le_length : ∀ l : List Bool, index_of_true l ≤ l.length
  | [] => by simp [index_of_true]
  | true :: l => by simp [index_of_true]
  | false :: l => by simpa [index_of_true] using index_of_true_le_length l

lemma getD_eq_false_of_lt_index_of_true : ∀ (l : List Bool) (m : Nat) (d : Bool),
    m < index_of_true l → l.getD m d = false
  | [], m, d, h => by simp [index_of_true] at h
  | true :: l, m, d, h => by simp [index_of_true] at h
  | false :: l, 0, d, _ => rfl
  | false :: l, m + 1, d, h => by
    simpa using getD_eq_false_of_lt_index_of_true l m d (by
      simpa [index_of_true] using h)

/-- If `n` forces the target value on every axis where `c` does not already
match the target (and together they cover the full target rank), then the
broadcast of `c` and `n` is exactly `t`.  All three shapes are in reversed
axis order. -/
lemma bcastRev_completes : ∀ (t c n : List Nat),
    c.length ≤ t.length → n.length ≤ t.length → t.length ≤ max c.length n.length →
    (∀ i, i < c.length → c.getD i 1 = 1 ∨ c.getD i 1 = t.getD i 1) →
    (∀ i, i < n.length →
      n.getD i 1 = t.getD i 1 ∨
        (n.getD i 1 = 1 ∧ i < c.length ∧ c.getD i 1 = t.getD i 1)) →
    (∀ i, n.length ≤ i → i < c.length → c.getD i 1 = t.getD i 1) →
    bcastRev c n = some t
  | [], [], [], _, _, _, _, _, _ => rfl
  | [], [], _ :: _, _, hn, _, _, _, _ => by simp at hn
  | [], _ :: _, _, hc, _, _, _, _, _ => by simp at hc
  | t0 :: ts, [], [], _, _, hcov, _, _, _ => by simp at hcov
  | t0 :: ts, [], n0 :: ns, _, hn, hcov, _, hn1, _ => by
    have h0 : n0 = t0 := by
      have := hn1 0 (by simp)
      simpa using this
    have htl : bcastRev [] ns = some ts := by
      refine bcastRev_completes ts [] ns (by simp) (by simpa using hn) ?_ ?_ ?_ ?_
      · simpa using hcov
      · intro i hi; simp at hi
      · intro i hi
        rcases hn1 (i + 1) (by simpa using hi) with h | h
        · left; simpa using h
        · simp at h
      · intro i _ hi; simp at hi
    have hns : ns = ts := by simpa [bcastRev] using htl
    simp [bcastRev, h0, hns]
  | t0 :: ts, c0 :: cs, [], hc, _, hcov, hc1, _, hc2 => by
    have h0 : c0 = t0 := by simpa using hc2 0 (by simp) (by simp)
    have htl : bcastRev cs [] = some ts := by
      refine bcastRev_completes ts cs [] (by simpa using hc) (by simp) ?_ ?_ ?_ ?_
      · simpa using hcov
      · intro i hi
        simpa using hc1 (i + 1) (by simpa using hi)
      · intro i hi; simp at hi
      · intro i _ hi
        simpa using hc2 (i + 1) (by simp) (by simpa using hi)
    have hcs : cs = ts := by cases cs <;> simpa [bcastRev] using htl
    simp [bcastRev, h0, hcs]
  | t0 :: ts, c0 :: cs, n0 :: ns, hc, hn, hcov, hc1, hn1, hc2 => by
    have hd : bcastDim c0 n0 = some t0 := by
      rcases hn1 0 (by simp) with h | h
      · have hn0 : n0 = t0 := by simpa using h
        rcases hc1 0 (by simp) with h1 | h1
        · subst hn0
          exact bcastDim_target_right (Or.inl (by simpa using h1))
        · subst hn0
          exact bcastDim_target_right (Or.inr (by simpa using h1))
      · have hn0 : n0 = 1 := by simpa using h.1
        have hc0 : c0 = t0 := by simpa using h.2.2
        subst hn0; subst hc0
        exact bcastDim_target_left (Or.inl rfl)
    have htl : bcastRev cs ns = some ts := by
      refine bcastRev_completes ts cs ns (by simpa using hc) (by simpa using hn) ?_ ?_ ?_ ?_
      · simp at hcov ⊢; omega
      · intro i hi
        simpa using hc1 (i + 1) (by simpa using hi)
      · intro i hi
        rcases hn1 (i + 1) (by simpa using hi) with h | h
        · left; simpa using h
        · right
          refine ⟨by simpa using h.1, by simpa using h.2.1, by simpa using h.2.2⟩
      · intro i hi hi2
        simpa using hc2 (i + 1) (by simpa using hi) (by simpa using hi2)
    simp [bcastRev, hd, htl]

lemma axis_is_mismatched_length (target current : List Nat)
    (hcl : current.length ≤ target.length) :
    (axis_is_mismatched target current).length = target.length := by
  simp [axis_is_mismatched, full_rank_current]
  omega

lemma mism_getD_eq (target current : List Nat) (hcl : current.length ≤ target.length)
    (m : Nat) (hm : m < target.length) :
    (axis_is_mismatched target current).getD m true
      = ((full_rank_current target.length current).getD m 1 != target.getD m 1) :=
  getD_zipWith_eq _ _ _ m 1 1 true
    (by rw [full_rank_current_length _ _ hcl]; omega) hm

lemma full_rank_getD_rev (target current : List Nat)
    (hcl : current.length ≤ target.length) (i : Nat) (hi : i < target.length) :
    (full_rank_current target.length current).getD (target.length - 1 - i) 1 =
      if i < current.length then current.reverse.getD i 1 else 1 := by
  have hFRlen : (full_rank_current target.length current).length = target.length :=
    full_rank_current_length _ _ hcl
  have h1 : (full_rank_current target.length current).reverse.getD i 1 =
      (full_rank_current target.length current).getD (target.length - 1 - i) 1 := by
    have := getD_reverse_eq (full_rank_current target.length current) i 1 (by omega)
    rwa [hFRlen] at this
  rw [← h1, full_rank_current_reverse]
  by_cases hic : i < current.length
  · rw [List.getD_append _ _ _ _ (by simpa using hic)]
    simp [hic]
  · rw [List.getD_append_right _ _ _ _ (by simpa using hic)]
    simp only [if_neg hic]
    by_cases hrange : i - current.length < target.length - current.length
    · rw [List.getD_eq_getElem _ _ (by simpa using hrange)]
      simp
    · rw [List.getD_eq_default _ _ (by simpa using hrange)]

/-- The final shape drawn by `broadcasting_shapes` closes the broadcast: if
`current` is a subshape of the target and the drawn rank is between the
computed `min_rank` and the target rank, the broadcast of `current` with the
final shape equals the target exactly. -/
lemma last_step_bcast (target current : List Nat) (r : Nat) (ones : List Bool)
    (hsub : SubRev current.reverse target.reverse)
    (hmin : last_min_rank target current ≤ r) (hr : r ≤ target.length) :
    bcast current (next_shape_of target current true (r, ones)) = some target := by
  have hcl : current.length ≤ target.length := by
    simpa using hsub.length_le
  have hmlen : (axis_is_mismatched target current).length = target.length :=
    axis_is_mismatched_length target current hcl
  have hns : next_shape_of target current true (r, ones) =
      mask_next_shape (target.drop (target.length - r))
        ((axis_is_mismatched target current).drop (target.length - r)) ones := by
    simp [next_shape_of, compute_rank_and_fullsize_reqd]
  rw [hns]
  set ns := mask_next_shape (target.drop (target.length - r))
    ((axis_is_mismatched target current).drop (target.length - r)) ones with hns_def
  have hnslen : ns.length = r := by
    rw [hns_def, mask_next_shape_length]
    simp
    omega
  -- the false-mismatch consequence: the current shape matches the target there
  have hmatch : ∀ i, i < target.length →
      (axis_is_mismatched target current).getD (target.length - 1 - i) true = false →
      (if i < current.length then current.reverse.getD i 1 else 1) =
        target.reverse.getD i 1 := by
    intro i hi hmf
    rw [mism_getD_eq target current hcl _ (by omega)] at hmf
    have := full_rank_getD_rev target current hcl i hi
    have htgt : target.reverse.getD i 1 = target.getD (target.length - 1 - i) 1 :=
      getD_reverse_eq target i 1 hi
    rw [htgt, ← this]
    simpa using hmf
  suffices h : bcastRev current.reverse ns.reverse = some target.reverse by
    simp [bcast, h]
  apply bcastRev_completes
  · simpa using hcl
  · simp [hnslen, hr]
  · -- coverage of the full target rank
    by_cases hfull : current.length = target.length
    · simp [hfull]
    · have : target.length ≤ r := by
        simpa [last_min_rank, hfull] using hmin
      simp [hnslen]
      omega
  · intro i hi
    exact hsub.getD_mem i hi
  · -- each axis of the final shape is the target value, or 1 over a matching axis
    intro i hi
    simp only [List.length_reverse, hnslen] at hi
    have hir : i < r := hi
    have hiL : i < target.length := by omega
    have hrev : ns.reverse.getD i 1 = ns.getD (ns.length - 1 - i) 1 :=
      getD_reverse_eq ns i 1 (by omega)
    have hj : ns.length - 1 - i = r - 1 - i := by omega
    have hdrop_len : (target.drop (target.length - r)).length = r := by
      simp; omega
    have hjlt : r - 1 - i < (target.drop (target.length - r)).length := by omega
    have hbase : (target.drop (target.length - r)).getD (r - 1 - i) 1 =
        target.getD (target.length - 1 - i) 1 := by
      rw [getD_drop_eq _ _ _ _ (by omega)]
      congr 1
      omega
    have hforce : ((axis_is_mismatched target current).drop (target.length - r)).getD
        (r - 1 - i) true = (axis_is_mismatched target current).getD
          (target.length - 1 - i) true := by
      rw [getD_drop_eq _ _ _ _ (by omega)]
      congr 1
      omega
    have htgt : target.reverse.getD i 1 = target.getD (target.length - 1 - i) 1 :=
      getD_reverse_eq target i 1 hiL
    rcases mask_next_shape_getD (target.drop (target.length - r))
        ((axis_is_mismatched target current).drop (target.length - r)) ones
        (r - 1 - i) hjlt with hcase | hcase
    · left
      rw [hrev, hj, hcase, hbase, htgt]
    · -- the axis was set to 1, so it was not forced: current matches here
      have hm0 : (axis_is_mismatched target current).getD
          (target.length - 1 - i) true = false := by
        rw [← hforce]; exact hcase.2
      have := hmatch i hiL hm0
      by_cases hic : i < current.length
      · right
        refine ⟨by rw [hrev, hj, hcase.1], by simpa using hic, ?_⟩
        simpa [hic] using this
      · left
        rw [hrev, hj, hcase.1, htgt]
        have h1 : (1 : Nat) = target.getD (target.length - 1 - i) 1 := by
          rw [← htgt]
          simpa [hic] using this
        exact h1
  · -- axes of current beyond the final shape's rank are already matched
    intro i hi hi2
    simp only [List.length_reverse, hnslen] at hi hi2
    have hiL : i < target.length := by omega
    by_cases hfull : current.length = target.length
    · have hidx : last_min_rank target current =
          target.length - index_of_true (axis_is_mismatched target current ++ [true]) := by
        simp [last_min_rank, hfull]
      have hm : target.length - 1 - i <
          index_of_true (axis_is_mismatched target current ++ [true]) := by
        have hle := index_of_true_le_length (axis_is_mismatched target current ++ [true])
        rw [hidx] at hmin
        simp [hmlen] at hle
        omega
      have hm0 : (axis_is_mismatched target current).getD
          (target.length - 1 - i) true = false := by
        have := getD_eq_false_of_lt_index_of_true
          (axis_is_mismatched target current ++ [true]) (target.length - 1 - i) true hm
        rwa [List.getD_append _ _ _ _ (by rw [hmlen]; omega)] at this
      have := hmatch i hiL hm0
      simpa [show i < current.length from hi2] using this
    · have : target.length ≤ r := by
        simpa [last_min_rank, hfull] using hmin
      omega

/-- Any masked trailing slice of the target is a subshape of the target. -/
lemma mask_drop_subRev (target : List Nat) (k : Nat) (f b : List Bool) :
    SubRev (mask_next_shape (target.drop k) f b).reverse target.reverse := by
  apply subRev_of_getD
  · simp [mask_next_shape_length]
  · intro i hi
    simp only [List.length_reverse, mask_next_shape_length, List.length_drop] at hi
    have hlen : (mask_next_shape (target.drop k) f b).length = target.length - k := by
      simp [mask_next_shape_length]
    have hrev : (mask_next_shape (target.drop k) f b).reverse.getD i 1 =
        (mask_next_shape (target.drop k) f b).getD (target.length - k - 1 - i) 1 := by
      have := getD_reverse_eq (mask_next_shape (target.drop k) f b) i 1 (by omega)
      rwa [hlen] at this
    have hjlt : target.length - k - 1 - i < (target.drop k).length := by
      simp
      omega
    have hbase : (target.drop k).getD (target.length - k - 1 - i) 1 =
        target.getD (target.length - 1 - i) 1 := by
      rw [getD_drop_eq _ _ _ _ (by simp at hjlt; omega)]
      congr 1
      omega
    have htgt : target.reverse.getD i 1 = target.getD (target.length - 1 - i) 1 :=
      getD_reverse_eq target i 1 (by omega)
    rcases mask_next_shape_getD (target.drop k) f b (target.length - k - 1 - i) hjlt with
      hcase | hcase
    · right
      rw [hrev, hcase, hbase, htgt]
    · left
      rw [hrev, hcase.1]

/-- Every shape generated by one loop iteration is a subshape of the target,
whatever the oracle supplies. -/
lemma next_shape_sub (target current : List Nat) (is_last : Bool) (c : ShapeChoice) :
    SubRev (next_shape_of target current is_last c).reverse target.reverse := by
  unfold next_shape_of compute_rank_and_fullsize_reqd
  by_cases h : is_last = true <;> simp [h, mask_drop_subRev]

lemma bs_loop_cons (target current : List Nat) (c : ShapeChoice) (cs : List ShapeChoice) :
    bs_loop target current (c :: cs) =
      match bcast current (next_shape_of target current cs.isEmpty c) with
      | none => none
      | some current2 =>
        match bs_loop target current2 cs with
        | none => none
        | some rest => some (next_shape_of target current cs.isEmpty c :: rest) := rfl

/-- The loop never hits a TensorFlow broadcast error: starting from any
subshape of the target (in particular the initial rank-0 shape), every
intermediate broadcast succeeds. -/
lemma bs_loop_isSome (target : List Nat) : ∀ (choices : List ShapeChoice)
    (current : List Nat), SubRev current.reverse target.reverse →
    (bs_loop target current choices).isSome = true
  | [], current, _ => rfl
  | c :: cs, current, hsub => by
    obtain ⟨d, hd, hdsub, _⟩ := bcastRev_subRev target.reverse current.reverse
      (next_shape_of target current cs.isEmpty c).reverse hsub
      (next_shape_sub target current cs.isEmpty c)
    have hb : bcast current (next_shape_of target current cs.isEmpty c) =
        some d.reverse := by
      simp [bcast, hd]
    have hrec := bs_loop_isSome target cs d.reverse (by simpa using hdsub)
    rw [bs_loop_cons, hb]
    cases hr : bs_loop target d.reverse cs with
    | none => rw [hr] at hrec; simp at hrec
    | some rest => simp [hr]

/-- Every shape in a successful run of the loop is a subshape of the target,
whatever the oracle supplies. -/
lemma bs_loop_mem_sub (target : List Nat) : ∀ (choices : List ShapeChoice)
    (current : List Nat) (shapes : List (List Nat)),
    bs_loop target current choices = some shapes →
    ∀ s ∈ shapes, SubRev s.reverse target.reverse
  | [], current, shapes, h => by
    simp only [bs_loop] at h
    cases h
    intro s hs
    simp at hs
  | c :: cs, current, shapes, h => by
    rw [bs_loop_cons] at h
    split at h
    · cases h
    · rename_i cur2 hb
      split at h
      · cases h
      · rename_i rest hr
        cases h
        intro s hs
        rcases List.mem_cons.mp hs with rfl | hs2
        · exact next_shape_sub target current cs.isEmpty c
        · exact bs_loop_mem_sub target cs cur2 rest hr s hs2

lemma validChoices_cons_destruct (target current : List Nat) (c : ShapeChoice)
    (cs : List ShapeChoice) (cur2 : List Nat)
    (hb : bcast current (next_shape_of target current cs.isEmpty c) = some cur2)
    (hv : validChoices target current (c :: cs) = true) :
    (cs.isEmpty = true → last_min_rank target current ≤ c.1) ∧
      c.1 ≤ target.length ∧ validChoices target cur2 cs = true := by
  simp only [validChoices] at hv
  rw [hb] at hv
  simp only [Bool.and_eq_true, decide_eq_true_eq] at hv
  refine ⟨?_, hv.1.2, hv.2⟩
  intro hemp
  have h1 := hv.1.1
  rw [if_pos hemp] at h1
  simpa using h1

/-- Broadcast closure of the loop: from any subshape `current`, a valid,
nonempty oracle run produces shapes whose total broadcast (together with
`current`) is exactly the target. -/
lemma bs_loop_closure (target : List Nat) : ∀ (choices : List ShapeChoice)
    (current : List Nat) (shapes : List (List Nat)),
    choices ≠ [] →
    SubRev current.reverse target.reverse →
    validChoices target current choices = true →
    bs_loop target current choices = some shapes →
    bcastFold current shapes = some target
  | [], _, _, hne, _, _, _ => absurd rfl hne
  | [c], current, shapes, _, hsub, hv, h => by
    simp only [validChoices, List.isEmpty_nil, if_pos, Bool.and_eq_true,
      decide_eq_true_eq] at hv
    have hlast : bcast current (next_shape_of target current true (c.1, c.2)) =
        some target :=
      last_step_bcast target current c.1 c.2 hsub hv.1.1 hv.1.2
    rw [bs_loop_cons] at h
    have hc : (c.1, c.2) = c := rfl
    rw [hc] at hlast
    simp only [List.isEmpty_nil] at h ⊢
    rw [hlast] at h
    simp only [bs_loop] at h
    cases h
    simp [bcastFold, hlast]
  | c :: c2 :: cs, current, shapes, _, hsub, hv, h => by
    rw [bs_loop_cons] at h
    split at h
    · cases h
    · rename_i cur2 hb
      split at h
      · cases h
      · rename_i rest hr
        cases h
        simp only [List.isEmpty_cons] at hb
        -- cur2 is again a subshape
        obtain ⟨d, hd, hdsub, _⟩ := bcastRev_subRev target.reverse current.reverse
          (next_shape_of target current false c).reverse hsub
          (next_shape_sub target current false c)
        have hb2 : bcast current (next_shape_of target current false c) =
            some d.reverse := by simp [bcast, hd]
        have hcur2 : cur2 = d.reverse := by
          rw [hb] at hb2
          exact Option.some.inj hb2
        have hcur2sub : SubRev cur2.reverse target.reverse := by
          rw [hcur2]; simpa using hdsub
        have hdes := validChoices_cons_destruct target current c (c2 :: cs) cur2 hb hv
        have hrec := bs_loop_closure target (c2 :: cs) cur2 rest (by simp)
          hcur2sub hdes.2.2 hr
        simp [bcastFold] at hrec ⊢
        rw [hb]
        simpa using hrec

lemma sub_length_le {s target : List Nat} (h : SubRev s.reverse target.reverse) :
    s.length ≤ target.length := by
  simpa using h.length_le

lemma broadcasting_shapes_ok_loop (target : List Nat) (n : Nat) (flag : Bool)
    (choices : List ShapeChoice) (shapes : List (List Nat)) (hne : n ≠ 1)
    (hrun : broadcasting_shapes target n flag choices = .ok shapes) :
    bs_loop target [] choices = some shapes := by
  unfold broadcasting_shapes at hrun
  have hcond : (decide (n = 1) && !flag) = false := by simp [hne]
  rw [hcond] at hrun
  simp only [Bool.false_eq_true, if_false] at hrun
  split at hrun
  · rename_i r hr
    cases hrun
    exact hr
  · cases hrun

lemma broadcasting_shapes_ok (target : List Nat) (n : Nat) (flag : Bool)
    (choices : List ShapeChoice) (hcond : (decide (n = 1) && !flag) = false) :
    ∃ r, broadcasting_shapes target n flag choices = .ok r := by
  obtain ⟨r, hr⟩ := Option.isSome_iff_exists.mp
    (bs_loop_isSome target choices [] trivial)
  refine ⟨r, ?_⟩
  unfold broadcasting_shapes
  rw [hcond]
  simp [hr]

/-- C1: for every fully-defined target shape and every `n ≥ 2`, the `n`
shapes returned by `broadcasting_shapes(target_shape, n)` (for any draws the
Hypothesis oracle can actually make, `validChoices`) broadcast, combined
pairwise under the trailing-axis broadcasting rule, to a shape exactly equal
to `target_shape`. -/
theorem broadcasting_shapes_broadcast_closure
    (target : List Nat) (n : Nat) (flag : Bool) (choices : List ShapeChoice)
    (shapes : List (List Nat)) (hn : 2 ≤ n) (hlen : choices.length = n)
    (hvalid : validChoices target [] choices = true)
    (hrun : broadcasting_shapes target n flag choices = .ok shapes) :
    bcastFold [] shapes = some target := by
  have hloop := broadcasting_shapes_ok_loop target n flag choices shapes
    (by omega) hrun
  have hne : choices ≠ [] := by
    intro h
    rw [h] at hlen
    simp at hlen
    omega
  exact bs_loop_closure target choices [] shapes hne trivial hvalid hloop

/-- Witness for C1 at target shape `[2]`, `n = 2`: the drawn shapes `[]` and
`[2]` broadcast to `[2]`. -/
theorem broadcasting_shapes_broadcast_closure_witness :
    validChoices [2] [] [(0, []), (1, [false])] = true ∧
      bcastFold [] [[], [2]] = some [2] :=
  ⟨by decide,
    broadcasting_shapes_broadcast_closure [2] 2 false [(0, []), (1, [false])]
      [[], [2]] (by decide) rfl (by decide) rfl⟩

/-- C3: every shape in a Shape Set returned by `broadcasting_shapes` has rank
between 0 and the rank of the target shape, inclusive (for all oracle
draws). -/
theorem broadcasting_shapes_rank_bounds
    (target : List Nat) (n : Nat) (flag : Bool) (choices : List ShapeChoice)
    (shapes : List (List Nat)) (hn : 2 ≤ n) (hlen : choices.length = n)
    (hrun : broadcasting_shapes target n flag choices = .ok shapes) :
    ∀ s ∈ shapes, 0 ≤ s.length ∧ s.length ≤ target.length := by
  intro s hs
  have hloop := broadcasting_shapes_ok_loop target n flag choices shapes
    (by omega) hrun
  exact ⟨Nat.zero_le _, sub_length_le (bs_loop_mem_sub target choices [] shapes hloop s hs)⟩

/-- Witness for C3 at target shape `[4,3]`, `n = 2`: the run produces
`[[1], [4,3]]` and the shape `[4,3]` has rank between 0 and 2. -/
theorem broadcasting_shapes_rank_bounds_witness :
    ([4, 3] ∈ ([[1], [4, 3]] : List (List Nat))) ∧
      0 ≤ ([4, 3] : List Nat).length ∧
        ([4, 3] : List Nat).length ≤ ([4, 3] : List Nat).length :=
  ⟨by decide,
    broadcasting_shapes_rank_bounds [4, 3] 2 false [(1, [true]), (2, [false, false])]
      [[1], [4, 3]] (by decide) rfl rfl [4, 3] (by decide)⟩

/-- C10: every shape returned by `broadcasting_shapes` is, axis for axis
aligned at the trailing end, either 1 or equal to the corresponding target
axis — individually broadcast-compatible with the target (for all oracle
draws). -/
theorem broadcasting_shapes_individually_compatible
    (target : List Nat) (n : Nat) (flag : Bool) (choices : List ShapeChoice)
    (shapes : List (List Nat)) (hn : 2 ≤ n) (hlen : choices.length = n)
    (hrun : broadcasting_shapes target n flag choices = .ok shapes) :
    ∀ s ∈ shapes, isSubshapeOf s target = true := by
  intro s hs
  have hloop := broadcasting_shapes_ok_loop target n flag choices shapes
    (by omega) hrun
  exact decide_eq_true (bs_loop_mem_sub target choices [] shapes hloop s hs)

/-- Witness for C10 at target shape `[3,1]`, `n = 2`: the run produces
`[[], [3,1]]` and `[3,1]` is axis-wise compatible with the target. -/
theorem broadcasting_shapes_individually_compatible_witness :
    ([3, 1] ∈ ([[], [3, 1]] : List (List Nat))) ∧
      isSubshapeOf [3, 1] [3, 1] = true :=
  ⟨by decide,
    broadcasting_shapes_individually_compatible [3, 1] 2 false
      [(0, []), (2, [false, true])] [[], [3, 1]] (by decide) rfl rfl [3, 1] (by decide)⟩

/-- C5: `broadcasting_shapes` raises the degenerate-`n=1` `ValueError` when
`n = 1` and the caller has not set `no_error_n_eq_1`; when the flag is set,
or when `n ≥ 2`, no error of any kind is raised. -/
theorem broadcasting_shapes_n_eq_1_error (target : List Nat) (flag : Bool)
    (choices : List ShapeChoice) (n : Nat) :
    (n = 1 → flag = false →
      broadcasting_shapes target n flag choices = .error n_eq_1_error_msg) ∧
    (n = 1 → flag = true →
      ∃ r, broadcasting_shapes target n flag choices = .ok r) ∧
    (2 ≤ n → ∃ r, broadcasting_shapes target n flag choices = .ok r) := by
  refine ⟨?_, ?_, ?_⟩
  · intro hn hf
    subst hn
    subst hf
    rfl
  · intro hn hf
    subst hn
    subst hf
    exact broadcasting_shapes_ok target 1 true choices (by simp)
  · intro hn
    exact broadcasting_shapes_ok target n flag choices (by simp; omega)

/-- Witness for C5: `n = 1` without the flag errors; `n = 2` succeeds. -/
theorem broadcasting_shapes_n_eq_1_error_witness :
    broadcasting_shapes [2] 1 false [] = .error n_eq_1_error_msg ∧
      ∃ r, broadcasting_shapes [2] 2 false [(0, []), (1, [false])] = .ok r :=
  ⟨(broadcasting_shapes_n_eq_1_error [2] false [] 1).1 rfl rfl,
    (broadcasting_shapes_n_eq_1_error [2] false [(0, []), (1, [false])] 2).2.2
      (by decide)⟩

lemma getD_index_of_true : ∀ (l : List Bool) (d : Bool),
    index_of_true l < l.length → l.getD (index_of_true l) d = true
  | [], d, h => by simp [index_of_true] at h
  | true :: l, d, _ => rfl
  | false :: l, d, h => by
    simpa [index_of_true] using
      getD_index_of_true l d (by simpa [index_of_true] using h)

lemma index_of_true_append_true_le (l : List Bool) :
    index_of_true (l ++ [true]) ≤ l.length := by
  induction l with
  | nil => simp [index_of_true]
  | cons b l ih =>
    cases b with
    | true => simp [index_of_true]
    | false => simpa [index_of_true] using ih

/-- The minimum final rank as the spec sentence for C2 describes it: the
smallest rank `r` such that every target axis on which the broadcast of the
previously drawn shapes does not already (value-wise) match the target falls
within the final shape's trailing `r` axes, i.e. no mismatched axis lies
among the leading `target_rank - r` axes.  (Stated from the spec's words, to
be compared against the source's `last_min_rank`.) -/
def claimed_min_rank (target current : List Nat) : Nat :=
  Nat.find (show ∃ r, ∀ i, i < target.length - r →
      (axis_is_mismatched target current).getD i true = false from
    ⟨target.length, fun i hi => absurd hi (by omega)⟩)

/-- C2 counterexample: with target shape `[1]` and previously drawn shapes
broadcasting to `[]` (a state reached, e.g., after a first non-last draw of
rank 0), the source computes minimum rank 1 while the claim's formula gives
0 — indeed a rank-0 final shape would leave the broadcast at `[]`, not `[1]`,
as the last conjunct shows. -/
theorem last_min_rank_counterexample :
    last_min_rank [1] [] ≠ claimed_min_rank [1] [] ∧
      last_min_rank [1] [] = 1 ∧ claimed_min_rank [1] [] = 0 ∧
        next_shape_of [1] [] false (0, []) = [] ∧
          bcastFold [] [[], []] = some [] := by
  have h1 : last_min_rank [1] [] = 1 := by decide
  have h0 : claimed_min_rank [1] [] = 0 := by
    rw [claimed_min_rank, Nat.find_eq_zero]
    decide
  exact ⟨by rw [h1, h0]; decide, h1, h0, rfl, rfl⟩

/-- C2 amended: the minimum admissible rank for the final shape is the
target rank whenever the broadcast of the previously drawn shapes does not
already have the full target rank; only when it does is it the smallest rank
placing all mismatched target axes within the final shape's trailing axes
(the actual rank is then drawn between this minimum and the target rank). -/
theorem last_min_rank_characterization (target current : List Nat) :
    last_min_rank target current =
      if current.length = target.length then claimed_min_rank target current
      else target.length := by
  by_cases hfull : current.length = target.length
  · rw [if_pos hfull]
    have hmlen : (axis_is_mismatched target current).length = target.length :=
      axis_is_mismatched_length target current (by omega)
    set mism := axis_is_mismatched target current with hmism
    set idx := index_of_true (mism ++ [true]) with hidx
    have hidxle : idx ≤ target.length := by
      rw [hidx, ← hmlen]
      exact index_of_true_append_true_le mism
    have hlmr : last_min_rank target current = target.length - idx := by
      simp [last_min_rank, hfull, hidx, hmism]
    rw [hlmr, claimed_min_rank]
    symm
    rw [Nat.find_eq_iff]
    constructor
    · intro i hi
      have hiidx : i < idx := by omega
      have := getD_eq_false_of_lt_index_of_true (mism ++ [true]) i true hiidx
      rwa [List.getD_append _ _ _ _ (by rw [hmlen]; omega)] at this
    · intro k hk hp
      have hidxlt : idx < target.length := by omega
      have htrue : mism.getD idx true = true := by
        have h := getD_index_of_true (mism ++ [true]) true (by simp; omega)
        rwa [List.getD_append _ _ _ _ (by rw [hmlen]; omega)] at h
      have := hp idx (by omega)
      rw [this] at htrue
      cases htrue
  · simp [last_min_rank, hfull]

/-! ### broadcasting_params: mutex parameter selection (source lines 505-514) -/

/-- `p` and `q` clash: some mutex group contains both (the source removes the
whole `mutex_set` from `remaining_params` whenever the chosen `param` is in
it). -/
def param_conflict (mutex_params : List (List String)) (p q : String) : Bool :=
  mutex_params.any fun g => g.contains p && g.contains q

/-- The `while remaining_params` selection loop of `broadcasting_params`
(lines 508-514).  Each iteration draws one of the remaining parameter names
(`hps.sampled_from(sorted(remaining_params))` — a uniform draw over the
remaining set; we model it as the oracle index `draws step` into the
remaining list, reduced mod its length: sorting only fixes which index
denotes which member, and the oracle ranges over all of them), appends it,
and removes it together with every member of any mutex group containing it.
`fuel` bounds the recursion; each iteration removes the chosen element, so
`fuel = remaining.length` suffices. -/
def select_params_loop (mutex_params : List (List String)) (draws : Nat → Nat) :
    Nat → Nat → List String → List String
  | 0, _, _ => []
  | fuel + 1, step, remaining =>
    match remaining with
    | [] => []
    | r0 :: rs =>
      let param := (r0 :: rs).getD (draws step % (r0 :: rs).length) r0
      let remaining2 := ((r0 :: rs).erase param).filter
        fun q => !(param_conflict mutex_params param q)
      param :: select_params_loop mutex_params draws fuel (step + 1) remaining2

/-- The keys of the dictionary returned by `broadcasting_params`
(`params_to_use` of lines 507-514: one dictionary entry is built per selected
parameter, so the returned keys are exactly the selected names). -/
def broadcasting_params_selected (params : List String)
    (mutex_params : List (List String)) (draws : Nat → Nat) : List String :=
  select_params_loop mutex_params draws params.length 0 params

lemma select_params_loop_subset (mutex_params : List (List String))
    (draws : Nat → Nat) : ∀ (fuel step : Nat) (remaining : List String),
    ∀ p ∈ select_params_loop mutex_params draws fuel step remaining, p ∈ remaining
  | 0, _, _ => by simp [select_params_loop]
  | fuel + 1, step, [] => by simp [select_params_loop]
  | fuel + 1, step, r0 :: rs => by
    intro p hp
    simp only [select_params_loop] at hp
    rcases List.mem_cons.mp hp with rfl | hp2
    · have hlt : draws step % (r0 :: rs).length < (r0 :: rs).length :=
        Nat.mod_lt _ (by simp)
      rw [List.getD_eq_getElem _ _ hlt]
      exact List.getElem_mem hlt
    · have := select_params_loop_subset mutex_params draws fuel (step + 1) _ p hp2
      exact List.erase_subset _ _ (List.mem_of_mem_filter this)

lemma select_params_loop_group (mutex_params : List (List String))
    (draws : Nat → Nat) (g : List String) (hgm : g ∈ mutex_params) :
    ∀ (fuel step : Nat) (remaining : List String),
    ((select_params_loop mutex_params draws fuel step remaining).filter
      fun p => g.contains p).length ≤ 1
  | 0, _, _ => by simp [select_params_loop]
  | fuel + 1, step, [] => by simp [select_params_loop]
  | fuel + 1, step, r0 :: rs => by
    simp only [select_params_loop]
    set param := (r0 :: rs).getD (draws step % (r0 :: rs).length) r0 with hparam
    set remaining2 := ((r0 :: rs).erase param).filter
      (fun q => !(param_conflict mutex_params param q)) with hrem2
    by_cases hpg : g.contains param = true
    · have hnone : ∀ q ∈ select_params_loop mutex_params draws fuel (step + 1)
          remaining2, g.contains q = false := by
        intro q hq
        have hq2 := select_params_loop_subset mutex_params draws fuel (step + 1)
          remaining2 q hq
        rw [hrem2] at hq2
        have hkeep := List.of_mem_filter hq2
        by_contra hcont
        have hqg : g.contains q = true := by
          cases h : g.contains q
          · exact absurd h hcont
          · rfl
        have : param_conflict mutex_params param q = true := by
          simp only [param_conflict, List.any_eq_true]
          refine ⟨g, hgm, ?_⟩
          simp only [Bool.and_eq_true]
          exact ⟨hpg, hqg⟩
        rw [this] at hkeep
        cases hkeep
      have hfe : (select_params_loop mutex_params draws fuel (step + 1)
          remaining2).filter (fun p => g.contains p) = [] :=
        List.filter_eq_nil_iff.mpr (by
          intro a ha
          simpa using hnone a ha)
      rw [List.filter_cons, if_pos (by simpa using hpg), hfe]
      simp
    · rw [List.filter_cons, if_neg (by simpa using hpg)]
      exact select_params_loop_group mutex_params draws g hgm fuel (step + 1) remaining2

/-- C4: a parameter dictionary built by `broadcasting_params` never contains
two names from the same mutex group, and with parameters `{a, b}` and the
single mutex group `{a, b}` it contains exactly one of `a` or `b` — whatever
the Hypothesis oracle draws. -/
theorem broadcasting_params_mutex_exclusive :
    (∀ (params : List String) (mutex_params : List (List String))
        (draws : Nat → Nat) (g : List String), g ∈ mutex_params →
        ((broadcasting_params_selected params mutex_params draws).filter
          fun p => g.contains p).length ≤ 1) ∧
      ∀ draws : Nat → Nat,
        broadcasting_params_selected ["a", "b"] [["a", "b"]] draws = ["a"] ∨
          broadcasting_params_selected ["a", "b"] [["a", "b"]] draws = ["b"] := by
  constructor
  · intro params mutex_params draws g hg
    exact select_params_loop_group mutex_params draws g hg params.length 0 params
  · intro draws
    rcases Nat.mod_two_eq_zero_or_one (draws 0) with h | h
    · left
      simp [broadcasting_params_selected, select_params_loop, h, param_conflict]
    · right
      simp [broadcasting_params_selected, select_params_loop, h, param_conflict]

/-- Witness for C4 with parameters `{a, b}`, mutex group `{a, b}` and a
constant oracle. -/
theorem broadcasting_params_mutex_exclusive_witness :
    (["a", "b"] ∈ ([["a", "b"]] : List (List String))) ∧
      ((broadcasting_params_selected ["a", "b"] [["a", "b"]] fun _ => 0).filter
        fun p => (["a", "b"] : List String).contains p).length ≤ 1 :=
  ⟨by simp,
    broadcasting_params_mutex_exclusive.1 ["a", "b"] [["a", "b"]]
      (fun _ => 0) ["a", "b"] (by simp)⟩

/-! ### Support catalog (source lines 219-331) and constraining transforms -/

namespace Support

def SCALAR_UNCONSTRAINED : String := "SCALAR_UNCONSTRAINED"

def SCALAR_NON_NEGATIVE : String := "SCALAR_NON_NEGATIVE"

def SCALAR_NON_ZERO : String := "SCALAR_NON_ZERO"

def SCALAR_POSITIVE : String := "SCALAR_POSITIVE"

def SCALAR_GT_NEG1 : String := "SCALAR_GT_NEG1"

def SCALAR_IN_NEG1_1 : String := "SCALAR_IN_NEG1_1"

def SCALAR_IN_0_1 : String := "SCALAR_IN_0_1"

def VECTOR_UNCONSTRAINED : String := "VECTOR_UNCONSTRAINED"

def VECTOR_SIZE_TRIANGULAR : String := "VECTOR_SIZE_TRIANGULAR"

def VECTOR_POSITIVE_WITH_L1_NORM_1_SIZE_GT1 : String :=
  "VECTOR_POSITIVE_WITH_L1_NORM_1_SIZE_GT1"

def VECTOR_STRICTLY_INCREASING : String := "VECTOR_STRICTLY_INCREASING"

def MATRIX_UNCONSTRAINED : String := "MATRIX_UNCONSTRAINED"

def MATRIX_LOWER_TRIL : String := "MATRIX_LOWER_TRIL"

def MATRIX_LOWER_TRIL_POSITIVE_DEFINITE : String :=
  "MATRIX_LOWER_TRIL_POSITIVE_DEFINITE"

def MATRIX_POSITIVE_DEFINITE : String := "MATRIX_POSITIVE_DEFINITE"

def CORRELATION_CHOLESKY : String := "CORRELATION_CHOLESKY"

def OTHER : String := "OTHER"

end Support

/-- Tags naming the constraining transforms the dispatch tables of
`_scalar_constrainer` / `_vector_constrainer` / `_matrix_constrainer` map to
(the real-valued transforms themselves act on float tensors; `lower_tril` is
additionally given an executable matrix semantics below). -/
inductive ConstrainFn where
  | sigmoid
  | softplus_plus_eps_gt_neg1
  | nonzero
  | tanh_in_neg1_1
  | softplus
  | softplus_plus_eps
  | identity_fn
  | cumsum_strictly_increasing
  | l1norm
  | positive_definite
  | lower_tril_positive_definite
  | lower_tril
deriving DecidableEq

/-- The `constrainers` dict of `_scalar_constrainer` (lines 258-266). -/
def scalar_constrainers : List (String × ConstrainFn) :=
  [(Support.SCALAR_IN_0_1, .sigmoid),
   (Support.SCALAR_GT_NEG1, .softplus_plus_eps_gt_neg1),
   (Support.SCALAR_NON_ZERO, .nonzero),
   (Support.SCALAR_IN_NEG1_1, .tanh_in_neg1_1),
   (Support.SCALAR_NON_NEGATIVE, .softplus),
   (Support.SCALAR_POSITIVE, .softplus_plus_eps),
   (Support.SCALAR_UNCONSTRAINED, .identity_fn)]

/-- The `constrainers` dict of `_vector_constrainer` (lines 280-289). -/
def vector_constrainers : List (String × ConstrainFn) :=
  [(Support.VECTOR_UNCONSTRAINED, .identity_fn),
   (Support.VECTOR_STRICTLY_INCREASING, .cumsum_strictly_increasing),
   (Support.VECTOR_POSITIVE_WITH_L1_NORM_1_SIZE_GT1, .l1norm),
   (Support.VECTOR_SIZE_TRIANGULAR, .identity_fn)]

/-- The `constrainers` dict of `_matrix_constrainer` (lines 297-306). -/
def matrix_constrainers : List (String × ConstrainFn) :=
  [(Support.MATRIX_UNCONSTRAINED, .identity_fn),
   (Support.MATRIX_POSITIVE_DEFINITE, .positive_definite),
   (Support.MATRIX_LOWER_TRIL_POSITIVE_DEFINITE, .lower_tril_positive_definite),
   (Support.MATRIX_LOWER_TRIL, .lower_tril)]

/-- `_scalar_constrainer` (lines 252-269): table lookup, raising
`NotImplementedError(support)` (modelled as `Except.error support`) when the
tag is absent. -/
def scalar_constrainer (support : String) : Except String ConstrainFn :=
  match scalar_constrainers.lookup support with
  | some c => .ok c
  | none => .error support

/-- `_vector_constrainer` (lines 272-292). -/
def vector_constrainer (support : String) : Except String ConstrainFn :=
  match vector_constrainers.lookup support with
  | some c => .ok c
  | none => .error support

/-- `_matrix_constrainer` (lines 295-309). -/
def matrix_constrainer (support : String) : Except String ConstrainFn :=
  match matrix_constrainers.lookup support with
  | some c => .ok c
  | none => .error support

/-- Python's `str.startswith`, as a character-list prefix test (kept as an
explicit definition so that concrete runs reduce in the kernel). -/
def starts_with (s p : String) : Bool :=
  p.data.isPrefixOf s.data

/-- `constrainer(support)` (lines 312-320): dispatch on the tag-name prefix,
raising `NotImplementedError(support)` when no family prefix matches. -/
def constrainer (support : String) : Except String ConstrainFn :=
  if starts_with support "SCALAR_" then scalar_constrainer support
  else if starts_with support "VECTOR_" then vector_constrainer support
  else if starts_with support "MATRIX_" then matrix_constrainer support
  else .error support

/-- `min_rank_for_support(support)` (lines 323-331): prefix dispatch only —
no table lookup. -/
def min_rank_for_support (support : String) : Except String Nat :=
  if starts_with support "SCALAR_" then .ok 0
  else if starts_with support "VECTOR_" then .ok 1
  else if starts_with support "MATRIX_" then .ok 2
  else .error support

/-- `tf.linalg.band_part(input, num_lower, num_upper)` on an integer matrix:
keep entry `(m, n)` iff `(num_lower < 0 or m - n <= num_lower) and
(num_upper < 0 or n - m <= num_upper)`; other entries become 0. -/
def band_part (num_lower num_upper : Int) (x : List (List Int)) :
    List (List Int) :=
  x.mapIdx fun m row => row.mapIdx fun n v =>
    if (num_lower < 0 ∨ (m : Int) - n ≤ num_lower) ∧
        (num_upper < 0 ∨ (n : Int) - m ≤ num_upper) then v else 0

/-- `lower_tril` (lines 957-958): `tf.linalg.band_part(x, -1, 0)`. -/
def lower_tril (x : List (List Int)) : List (List Int) :=
  band_part (-1) 0 x

/-- C6 counterexample: `"SCALAR_BOGUS"` starts with `SCALAR_` but is absent
from the scalar dispatch table, so `constrainer` fails as the claim says —
but `min_rank_for_support` succeeds with 0, contradicting the claim that both
fail on tags absent from their family's table. -/
theorem min_rank_for_support_counterexample :
    starts_with "SCALAR_BOGUS" "SCALAR_" = true ∧
      scalar_constrainers.lookup "SCALAR_BOGUS" = none ∧
        (constrainer "SCALAR_BOGUS").isOk = false ∧
          min_rank_for_support "SCALAR_BOGUS" = .ok 0 :=
  ⟨rfl, by decide, rfl, rfl⟩

/-- C6 amended: `min_rank_for_support` fails exactly when the tag starts with
none of the three family prefixes (it never consults the dispatch tables);
`constrainer` additionally requires the tag to be present in its family's
table; hence `constrainer` succeeding implies `min_rank_for_support`
succeeds. -/
theorem constrainer_min_rank_error_conditions (support : String) :
    ((min_rank_for_support support).isOk =
      (starts_with support "SCALAR_" || starts_with support "VECTOR_" ||
        starts_with support "MATRIX_")) ∧
    ((constrainer support).isOk =
      (if starts_with support "SCALAR_" then
        (scalar_constrainers.lookup support).isSome
      else if starts_with support "VECTOR_" then
        (vector_constrainers.lookup support).isSome
      else if starts_with support "MATRIX_" then
        (matrix_constrainers.lookup support).isSome
      else false)) ∧
    ((constrainer support).isOk = true → (min_rank_for_support support).isOk = true) := by
  refine ⟨?_, ?_, ?_⟩
  · unfold min_rank_for_support
    cases h1 : starts_with support "SCALAR_" <;>
      cases h2 : starts_with support "VECTOR_" <;>
        cases h3 : starts_with support "MATRIX_" <;> simp [Except.isOk, Except.toBool]
  · unfold constrainer
    cases h1 : starts_with support "SCALAR_" <;>
      cases h2 : starts_with support "VECTOR_" <;>
        cases h3 : starts_with support "MATRIX_" <;>
          simp [Except.isOk, Except.toBool, scalar_constrainer, vector_constrainer,
            matrix_constrainer] <;>
            first
              | (cases hl : scalar_constrainers.lookup support <;> simp [hl])
              | (cases hl : vector_constrainers.lookup support <;> simp [hl])
              | (cases hl : matrix_constrainers.lookup support <;> simp [hl])
  · intro hok
    unfold constrainer at hok
    unfold min_rank_for_support
    cases h1 : starts_with support "SCALAR_" <;>
      cases h2 : starts_with support "VECTOR_" <;>
        cases h3 : starts_with support "MATRIX_" <;>
          simp_all [Except.isOk, Except.toBool]

/-- Witness for C6 (amended): at a recognized tag the implication from
`constrainer` succeeding to `min_rank_for_support` succeeding is realized. -/
theorem constrainer_min_rank_error_conditions_witness :
    (constrainer "MATRIX_LOWER_TRIL").isOk = true ∧
      (min_rank_for_support "MATRIX_LOWER_TRIL").isOk = true :=
  ⟨rfl, (constrainer_min_rank_error_conditions "MATRIX_LOWER_TRIL").2.2 rfl⟩

/-- C7: `constrainer('MATRIX_LOWER_TRIL')` dispatches to the `lower_tril`
transform, and that transform maps `[[1,2],[3,4]]` to `[[1,0],[3,4]]`,
zeroing the strictly-upper-triangular entries and keeping the lower triangle
and diagonal. -/
theorem constrainer_matrix_lower_tril_example :
    constrainer Support.MATRIX_LOWER_TRIL = .ok ConstrainFn.lower_tril ∧
      lower_tril [[1, 2], [3, 4]] = [[1, 0], [3, 4]] :=
  ⟨rfl, by decide⟩

/-! ### constrained_tensors: default elements strategy (source lines 334-370) -/

/-- The NumPy dtypes relevant to `constrained_tensors`. -/
inductive NpDType where
  | float16
  | float32
  | float64
  | boolean
  | int8
  | int16
  | int32
  | int64
  | uint8
  | uint16
  | uint32
  | uint64
  | complex64
  | complex128
deriving DecidableEq

/-- `dtype_util.is_floating`. -/
def is_floating : NpDType → Bool
  | .float16 | .float32 | .float64 => true
  | _ => false

/-- `dtype_util.is_bool`. -/
def is_bool : NpDType → Bool
  | .boolean => true
  | _ => false

/-- `np.dtype(...).itemsize * 8`: the dtype's native bit width. -/
def itemsize_bits : NpDType → Nat
  | .float16 => 16
  | .float32 => 32
  | .float64 => 64
  | .boolean => 8
  | .int8 => 8
  | .int16 => 16
  | .int32 => 32
  | .int64 => 64
  | .uint8 => 8
  | .uint16 => 16
  | .uint32 => 32
  | .uint64 => 64
  | .complex64 => 64
  | .complex128 => 128

/-- The element strategy selected by `constrained_tensors` (the strategies
themselves are Hypothesis objects; we record which one is built and with
which arguments). -/
inductive Elements where
  | floats (lo hi : Int) (allow_nan allow_infinity : Bool) (width : Nat)
  | booleans
deriving DecidableEq

/-- The `elements` selection of `constrained_tensors` (lines 351-359): when
no explicit strategy is given, floating dtypes get bounded finite floats at
the dtype's native width, boolean dtypes get booleans, and any other dtype
raises `NotImplementedError(dtype)`. -/
def constrained_tensors_elements (dtype : NpDType) (elements : Option Elements) :
    Except String Elements :=
  match elements with
  | some e => .ok e
  | none =>
    if is_floating dtype then
      .ok (.floats (-200) 200 false false (itemsize_bits dtype))
    else if is_bool dtype then
      .ok .booleans
    else
      .error "NotImplementedError: unsupported dtype"

/-- C9: called without an explicit elements strategy, `constrained_tensors`
fails with the unsupported-dtype error exactly for the dtypes that are
neither floating-point nor boolean, and succeeds for floating and boolean
dtypes. -/
theorem constrained_tensors_unsupported_dtype (dtype : NpDType) :
    (constrained_tensors_elements dtype none).isOk =
      (is_floating dtype || is_bool dtype) := by
  cases dtype <;> rfl

/-! ### valid_slices (source lines 776-834) -/

/-- A single-axis selector: integer index, `start:stop:step` slice (with
optional components, as in Python `slice(a, b, c)`), `tf.newaxis`, or
`Ellipsis`. -/
inductive Slc where
  | idx : Int → Slc
  | rng : Option Int → Option Int → Option Int → Slc
  | newaxis : Slc
  | ellipsis : Slc
deriving DecidableEq

/-- The value returned by `valid_slices`: a tuple of selectors, or (when the
tuple has a single element and a coin flip says so) the bare selector. -/
inductive SliceExpr where
  | single : Slc → SliceExpr
  | tuple : List Slc → SliceExpr
deriving DecidableEq

/-- One draw of `hps.one_of(hps.integers(0, batch_shape[i] - 1),
arbitrary_slices)` (lines 799-802 / 817-820). -/
inductive SlcChoice where
  | int_idx : Int → SlcChoice
  | rng : Option Int → Option Int → Option Int → SlcChoice
deriving DecidableEq

def SlcChoice.toSlc : SlcChoice → Slc
  | .int_idx v => .idx v
  | .rng a b c => .rng a b c

/-- The oracle for one run of `valid_slices`: the number of slices drawn
before the (optional) ellipsis, those draws, the ellipsis coin flip, the
number and draws after, the newaxis insertion positions, and the
collapse-to-bare-selector coin flip. -/
structure SliceDraws where
  nb : Nat
  before : List SlcChoice
  has_ellipsis : Bool
  na : Nat
  after : List SlcChoice
  newaxis_positions : List Nat
  collapse : Bool

/-- `-100 ≤ x ≤ 100`, the range `arbitrary_slices` draws components from. -/
def opt_in_range : Option Int → Bool
  | none => true
  | some x => decide (-100 ≤ x) && decide (x ≤ 100)

/-- Validity of one per-axis draw against the axis size: integer indices are
drawn from `[0, size - 1]`; slice components from `[-100, 100]` with a
non-zero step (lines 788-794). -/
def choice_ok (size : Nat) : SlcChoice → Bool
  | .int_idx v => decide (0 ≤ v) && decide (v ≤ (size : Int) - 1)
  | .rng a b c =>
    opt_in_range a && opt_in_range b && opt_in_range c &&
      (match c with
       | none => true
       | some x => decide (x ≠ 0))

/-- Validity of a whole oracle record for `valid_slices(batch_shape)`: the
counts come from the ranges the source draws them from
(`hps.integers(0, batch_rank)`, `hps.integers(0, batch_rank - nb)`, at most
3 newaxis positions each at most the pre-insertion length), and each
per-axis draw is checked against the axis it indexes (`batch_shape[i]` with
`i` as in the source: positions `0..nb-1` before the ellipsis; after it,
trailing positions when the ellipsis is present, `nb..nb+na-1` otherwise). -/
def draws_ok (shape : List Nat) (d : SliceDraws) : Bool :=
  let rank := shape.length
  decide (d.nb ≤ rank) && decide (d.before.length = d.nb) &&
  decide (d.na ≤ rank - d.nb) && decide (d.after.length = d.na) &&
  ((List.range d.nb).all fun i =>
    choice_ok (shape.getD i 0) (d.before.getD i (.int_idx 0))) &&
  (if d.has_ellipsis then
    (List.range d.na).all fun i =>
      choice_ok (shape.getD (rank - d.na + i) 0) (d.after.getD i (.int_idx 0))
  else
    (List.range d.na).all fun i =>
      choice_ok (shape.getD (d.nb + i) 0) (d.after.getD i (.int_idx 0))) &&
  decide (d.newaxis_positions.length ≤ 3) &&
  (d.newaxis_positions.all fun p =>
    decide (p ≤ d.nb + (if d.has_ellipsis then 1 else 0) + d.na))

/-- Insert `p` into a descending-sorted list, keeping it descending. -/
def insert_desc (p : Nat) : List Nat → List Nat
  | [] => [p]
  | q :: qs => if q ≤ p then p :: q :: qs else q :: insert_desc p qs

/-- Python's `sorted(xs, reverse=True)`: descending insertion sort. -/
def sort_desc : List Nat → List Nat
  | [] => []
  | p :: ps => insert_desc p (sort_desc ps)

/-- `valid_slices(batch_shape)` (lines 776-834) under the oracle `d`: build
the before-group, the optional ellipsis and the after-group, splice in the
newaxis markers at the drawn positions in descending order, and possibly
collapse a single-element tuple to a bare selector. -/
def valid_slices (shape : List Nat) (d : SliceDraws) : SliceExpr :=
  let before := d.before.map SlcChoice.toSlc
  let after := d.after.map SlcChoice.toSlc
  let slices := before ++ (if d.has_ellipsis then [Slc.ellipsis] else []) ++ after
  let slices2 := (sort_desc d.newaxis_positions).foldl
    (fun acc p => acc.insertIdx p Slc.newaxis) slices
  if slices2.length = 1 && d.collapse then
    .single (slices2.getD 0 Slc.ellipsis)
  else
    .tuple slices2

def slc_is_newaxis : Slc → Bool
  | .newaxis => true
  | _ => false

def slc_is_ellipsis : Slc → Bool
  | .ellipsis => true
  | _ => false

/-- A legal non-ellipsis, non-newaxis selector for an axis of the given
size: an in-bounds integer index, or a range with non-zero step (a missing
step means step 1). -/
def axis_selector_ok (size : Nat) : Slc → Bool
  | .idx v => decide (0 ≤ v) && decide (v < (size : Int))
  | .rng _ _ c => decide (c.getD 1 ≠ 0)
  | _ => false

/-- Split a selector list at its first ellipsis, if any. -/
def split_at_ellipsis : List Slc → Option (List Slc × List Slc)
  | [] => none
  | .ellipsis :: rest => some ([], rest)
  | s :: rest => (split_at_ellipsis rest).map fun ab => (s :: ab.1, ab.2)

/-- Per-axis legality of the non-newaxis selectors: the group before the
(first) ellipsis is aligned with the leading axes, the group after it with
the trailing axes; with no ellipsis the whole list is aligned with the
leading axes. -/
def check_core (shape : List Nat) (core : List Slc) : Bool :=
  match split_at_ellipsis core with
  | none =>
    decide (core.length ≤ shape.length) &&
    ((List.range core.length).all fun i =>
      axis_selector_ok (shape.getD i 0) (core.getD i .ellipsis))
  | some (bef, aft) =>
    decide (bef.length + aft.length ≤ shape.length) &&
    decide ((aft.filter slc_is_ellipsis).length = 0) &&
    ((List.range bef.length).all fun i =>
      axis_selector_ok (shape.getD i 0) (bef.getD i .ellipsis)) &&
    ((List.range aft.length).all fun i =>
      axis_selector_ok (shape.getD (shape.length - aft.length + i) 0)
        (aft.getD i .ellipsis))

/-- The structural-validity check of the claim: at most one ellipsis, at
most 3 newaxis markers, and — after discarding the newaxis markers and
aligning the groups before/after the ellipsis with the leading/trailing
axes — only legal per-axis selectors. -/
def check_slice_list (shape : List Nat) (l : List Slc) : Bool :=
  decide ((l.filter slc_is_ellipsis).length ≤ 1) &&
  decide ((l.filter slc_is_newaxis).length ≤ 3) &&
  check_core shape (l.filter fun s => !(slc_is_newaxis s))

def check_slice_expr (shape : List Nat) : SliceExpr → Bool
  | .single s => check_slice_list shape [s]
  | .tuple l => check_slice_list shape l

lemma length_insert_desc (p : Nat) : ∀ l : List Nat,
    (insert_desc p l).length = l.length + 1
  | [] => rfl
  | q :: qs => by
    by_cases h : q ≤ p <;> simp [insert_desc, h, length_insert_desc p qs]

lemma length_sort_desc : ∀ l : List Nat, (sort_desc l).length = l.length
  | [] => rfl
  | p :: ps => by simp [sort_desc, length_insert_desc, length_sort_desc ps]

lemma filter_insertIdx_of_neg {α : Type} (p : α → Bool) (x : α) (hx : p x = false) :
    ∀ (n : Nat) (l : List α), (l.insertIdx n x).filter p = l.filter p
  | 0, l => by simp [List.insertIdx_zero, List.filter_cons, hx]
  | n + 1, [] => by simp [List.insertIdx_succ_nil]
  | n + 1, a :: l => by
    simp only [List.insertIdx_succ_cons, List.filter_cons,
      filter_insertIdx_of_neg p x hx n l]

lemma filter_insertIdx_le {α : Type} (p : α → Bool) (x : α) :
    ∀ (n : Nat) (l : List α),
    ((l.insertIdx n x).filter p).length ≤ (l.filter p).length + 1
  | 0, l => by
    simp only [List.insertIdx_zero, List.filter_cons]
    split <;> simp
  | n + 1, [] => by simp [List.insertIdx_succ_nil]
  | n + 1, a :: l => by
    simp only [List.insertIdx_succ_cons, List.filter_cons]
    have := filter_insertIdx_le p x n l
    split <;> simp <;> omega

lemma filter_foldl_insert_of_neg (p : Slc → Bool) (hx : p Slc.newaxis = false) :
    ∀ (ps : List Nat) (l : List Slc),
    ((ps.foldl (fun acc q => acc.insertIdx q Slc.newaxis) l).filter p) = l.filter p
  | [], l => rfl
  | q :: qs, l => by
    simp only [List.foldl_cons]
    rw [filter_foldl_insert_of_neg p hx qs, filter_insertIdx_of_neg p _ hx]

lemma filter_foldl_insert_le (p : Slc → Bool) :
    ∀ (ps : List Nat) (l : List Slc),
    ((ps.foldl (fun acc q => acc.insertIdx q Slc.newaxis) l).filter p).length ≤
      (l.filter p).length + ps.length
  | [], l => by simp
  | q :: qs, l => by
    simp only [List.foldl_cons]
    have h1 := filter_foldl_insert_le p qs (l.insertIdx q Slc.newaxis)
    have h2 := filter_insertIdx_le p Slc.newaxis q l
    simp only [List.length_cons]
    omega

lemma filter_toSlc_ellipsis (cs : List SlcChoice) :
    (cs.map SlcChoice.toSlc).filter slc_is_ellipsis = [] := by
  induction cs with
  | nil => rfl
  | cons c cs ih => cases c <;> simpa [SlcChoice.toSlc, slc_is_ellipsis] using ih

lemma filter_toSlc_newaxis (cs : List SlcChoice) :
    (cs.map SlcChoice.toSlc).filter slc_is_newaxis = [] := by
  induction cs with
  | nil => rfl
  | cons c cs ih => cases c <;> simpa [SlcChoice.toSlc, slc_is_newaxis] using ih

lemma filter_not_newaxis_toSlc (cs : List SlcChoice) :
    (cs.map SlcChoice.toSlc).filter (fun s => !(slc_is_newaxis s)) =
      cs.map SlcChoice.toSlc := by
  induction cs with
  | nil => rfl
  | cons c cs ih => cases c <;> simpa [SlcChoice.toSlc, slc_is_newaxis] using ih

lemma split_at_ellipsis_append : ∀ (bef aft : List Slc),
    bef.filter slc_is_ellipsis = [] →
    split_at_ellipsis (bef ++ Slc.ellipsis :: aft) = some (bef, aft)
  | [], aft, _ => rfl
  | s :: bef, aft, h => by
    cases s with
    | ellipsis => simp [slc_is_ellipsis, List.filter_cons] at h
    | idx v =>
      have hh : bef.filter slc_is_ellipsis = [] := by
        simpa [List.filter_cons, slc_is_ellipsis] using h
      simp [split_at_ellipsis, split_at_ellipsis_append bef aft hh]
    | rng a b c =>
      have hh : bef.filter slc_is_ellipsis = [] := by
        simpa [List.filter_cons, slc_is_ellipsis] using h
      simp [split_at_ellipsis, split_at_ellipsis_append bef aft hh]
    | newaxis =>
      have hh : bef.filter slc_is_ellipsis = [] := by
        simpa [List.filter_cons, slc_is_ellipsis] using h
      simp [split_at_ellipsis, split_at_ellipsis_append bef aft hh]

lemma split_at_ellipsis_none : ∀ l : List Slc,
    l.filter slc_is_ellipsis = [] → split_at_ellipsis l = none
  | [], _ => rfl
  | s :: l, h => by
    cases s with
    | ellipsis => simp [slc_is_ellipsis, List.filter_cons] at h
    | idx v =>
      have hh : l.filter slc_is_ellipsis = [] := by
        simpa [List.filter_cons, slc_is_ellipsis] using h
      simp [split_at_ellipsis, split_at_ellipsis_none l hh]
    | rng a b c =>
      have hh : l.filter slc_is_ellipsis = [] := by
        simpa [List.filter_cons, slc_is_ellipsis] using h
      simp [split_at_ellipsis, split_at_ellipsis_none l hh]
    | newaxis =>
      have hh : l.filter slc_is_ellipsis = [] := by
        simpa [List.filter_cons, slc_is_ellipsis] using h
      simp [split_at_ellipsis, split_at_ellipsis_none l hh]

lemma axis_selector_ok_of_choice_ok (size : Nat) (c : SlcChoice)
    (h : choice_ok size c = true) : axis_selector_ok size c.toSlc = true := by
  cases c with
  | int_idx v =>
    simp only [choice_ok, Bool.and_eq_true, decide_eq_true_eq] at h
    simp only [SlcChoice.toSlc, axis_selector_ok, Bool.and_eq_true, decide_eq_true_eq]
    omega
  | rng a b c3 =>
    simp only [SlcChoice.toSlc, axis_selector_ok, decide_eq_true_eq]
    cases c3 with
    | none => simp
    | some x =>
      simp only [choice_ok, Bool.and_eq_true, decide_eq_true_eq] at h
      simpa using h.2

lemma getD_map_toSlc (cs : List SlcChoice) (i : Nat) (hi : i < cs.length) :
    (cs.map SlcChoice.toSlc).getD i Slc.ellipsis =
      SlcChoice.toSlc (cs.getD i (.int_idx 0)) := by
  rw [List.getD_eq_getElem _ _ (by simpa using hi), List.getD_eq_getElem _ _ hi,
    List.getElem_map]

lemma check_core_split_some (shape : List Nat) (core bef aft : List Slc)
    (h : split_at_ellipsis core = some (bef, aft)) :
    check_core shape core =
      (decide (bef.length + aft.length ≤ shape.length) &&
        decide ((aft.filter slc_is_ellipsis).length = 0) &&
        ((List.range bef.length).all fun i =>
          axis_selector_ok (shape.getD i 0) (bef.getD i .ellipsis)) &&
        ((List.range aft.length).all fun i =>
          axis_selector_ok (shape.getD (shape.length - aft.length + i) 0)
            (aft.getD i .ellipsis))) := by
  unfold check_core
  rw [h]

lemma check_core_split_none (shape : List Nat) (core : List Slc)
    (h : split_at_ellipsis core = none) :
    check_core shape core =
      (decide (core.length ≤ shape.length) &&
        ((List.range core.length).all fun i =>
          axis_selector_ok (shape.getD i 0) (core.getD i .ellipsis))) := by
  unfold check_core
  rw [h]

lemma singleton_of_length_one {α : Type} (l : List α) (d : α) (h : l.length = 1) :
    l = [l.getD 0 d] := by
  cases l with
  | nil => simp at h
  | cons a t =>
    cases t with
    | nil => rfl
    | cons b t2 => simp at h

/-- Structural validity of `valid_slices` for any shape and any oracle run
whose draws are in the ranges Hypothesis draws them from. -/
lemma valid_slices_check (shape : List Nat) (d : SliceDraws)
    (hd : draws_ok shape d = true) :
    check_slice_expr shape (valid_slices shape d) = true := by
  simp only [draws_ok, Bool.and_eq_true] at hd
  obtain ⟨⟨⟨⟨⟨⟨⟨hnb, hblen⟩, hna⟩, halen⟩, hbc⟩, hif⟩, hp3⟩, _hple⟩ := hd
  simp only [decide_eq_true_eq] at hnb hblen hna halen hp3
  simp only [List.all_eq_true, List.mem_range] at hbc
  set before := d.before.map SlcChoice.toSlc with hbe
  set after := d.after.map SlcChoice.toSlc with haf
  set slices := before ++ (if d.has_ellipsis then [Slc.ellipsis] else []) ++ after
    with hsl
  set slices2 := (sort_desc d.newaxis_positions).foldl
    (fun acc p => acc.insertIdx p Slc.newaxis) slices with hsl2
  have hblen2 : before.length = d.nb := by rw [hbe]; simpa using hblen
  have halen2 : after.length = d.na := by rw [haf]; simpa using halen
  have hfe : slices.filter slc_is_ellipsis =
      (if d.has_ellipsis then [Slc.ellipsis] else []) := by
    rw [hsl, hbe, haf]
    cases d.has_ellipsis <;>
      simp [List.filter_append, filter_toSlc_ellipsis, slc_is_ellipsis]
  have hfn : slices.filter slc_is_newaxis = [] := by
    rw [hsl, hbe, haf]
    cases d.has_ellipsis <;>
      simp [List.filter_append, filter_toSlc_newaxis, slc_is_newaxis]
  have hcore : slices2.filter (fun s => !(slc_is_newaxis s)) = slices := by
    rw [hsl2, filter_foldl_insert_of_neg _ rfl, hsl, hbe, haf,
      List.filter_append, List.filter_append, filter_not_newaxis_toSlc,
      filter_not_newaxis_toSlc]
    cases d.has_ellipsis
    · simp
    · simp [List.filter_cons, slc_is_newaxis]
  have hbok : ∀ i, i < before.length →
      axis_selector_ok (shape.getD i 0) (before.getD i .ellipsis) = true := by
    intro i hi
    rw [hblen2] at hi
    rw [hbe, getD_map_toSlc _ _ (by omega)]
    exact axis_selector_ok_of_choice_ok _ _ (hbc i hi)
  have hmain : check_slice_list shape slices2 = true := by
    have hc1 : (slices2.filter slc_is_ellipsis).length ≤ 1 := by
      rw [hsl2, filter_foldl_insert_of_neg _ rfl, hfe]
      cases d.has_ellipsis <;> simp
    have hc2 : (slices2.filter slc_is_newaxis).length ≤ 3 := by
      rw [hsl2]
      have h1 := filter_foldl_insert_le slc_is_newaxis
        (sort_desc d.newaxis_positions) slices
      rw [hfn, length_sort_desc] at h1
      simp only [List.length_nil] at h1
      omega
    rw [check_slice_list, hcore]
    simp only [Bool.and_eq_true, decide_eq_true_eq]
    refine ⟨⟨hc1, hc2⟩, ?_⟩
    cases hell : d.has_ellipsis with
    | true =>
      rw [hell] at hif
      simp only [if_pos, List.all_eq_true, List.mem_range] at hif
      have hslices : slices = before ++ Slc.ellipsis :: after := by
        rw [hsl, hell]
        simp
      have hsplit : split_at_ellipsis slices = some (before, after) := by
        rw [hslices]
        exact split_at_ellipsis_append before after
          (by rw [hbe]; exact filter_toSlc_ellipsis _)
      rw [check_core_split_some shape slices before after hsplit]
      simp only [Bool.and_eq_true, decide_eq_true_eq, List.all_eq_true,
        List.mem_range]
      refine ⟨⟨⟨by omega, ?_⟩, ?_⟩, ?_⟩
      · rw [haf]
        simp [filter_toSlc_ellipsis]
      · intro i hi
        exact hbok i hi
      · intro i hi
        rw [halen2] at hi
        rw [haf, getD_map_toSlc _ _ (by omega), halen2]
        exact axis_selector_ok_of_choice_ok _ _ (hif i hi)
    | false =>
      rw [hell] at hif
      simp only [if_neg, Bool.false_eq_true, reduceIte, List.all_eq_true,
        List.mem_range] at hif
      have hslices : slices = before ++ after := by
        rw [hsl, hell]
        simp
      have hsplit : split_at_ellipsis slices = none := by
        rw [hslices]
        apply split_at_ellipsis_none
        rw [hbe, haf]
        simp [List.filter_append, filter_toSlc_ellipsis]
      rw [check_core_split_none shape slices hsplit]
      simp only [Bool.and_eq_true, decide_eq_true_eq, List.all_eq_true,
        List.mem_range]
      constructor
      · rw [hslices]
        simp only [List.length_append]
        omega
      · intro i hi
        rw [hslices] at hi ⊢
        simp only [List.length_append] at hi
        by_cases hib : i < before.length
        · rw [List.getD_append _ _ _ _ hib]
          exact hbok i hib
        · rw [List.getD_append_right _ _ _ _ (by omega)]
          have hj : i - before.length < d.na := by omega
          rw [haf, getD_map_toSlc _ _ (by omega)]
          have hax : shape.getD i 0 = shape.getD (d.nb + (i - before.length)) 0 := by
            congr 1
            omega
          rw [hax]
          exact axis_selector_ok_of_choice_ok _ _ (hif (i - before.length) hj)
  have hv : valid_slices shape d =
      (if slices2.length = 1 && d.collapse then
        SliceExpr.single (slices2.getD 0 Slc.ellipsis)
      else SliceExpr.tuple slices2) := rfl
  rw [hv]
  by_cases hcol : (slices2.length = 1 && d.collapse) = true
  · rw [if_pos hcol]
    simp only [Bool.and_eq_true, decide_eq_true_eq] at hcol
    have hsing := singleton_of_length_one slices2 Slc.ellipsis hcol.1
    show check_slice_list shape [slices2.getD 0 Slc.ellipsis] = true
    rw [← hsing]
    exact hmain
  · rw [if_neg hcol]
    exact hmain

/-- C8: every value produced by `valid_slices` for the shape `[4,3,2]`
(under any oracle run with draws in the ranges the source draws from) is a
bare selector or a tuple with at most one ellipsis, at most 3 newaxis
markers, and otherwise only in-bounds integer indices or ranges with
non-zero step, aligned with the axes they select. -/
theorem valid_slices_structurally_valid (d : SliceDraws)
    (hd : draws_ok [4, 3, 2] d = true) :
    check_slice_expr [4, 3, 2] (valid_slices [4, 3, 2] d) = true :=
  valid_slices_check [4, 3, 2] d hd

/-- Witness for C8: a run with one index before an ellipsis, a range after
it, and two newaxis insertions. -/
theorem valid_slices_structurally_valid_witness :
    draws_ok [4, 3, 2]
        ⟨1, [.int_idx 2], true, 1, [.rng none (some 5) (some (-2))], [0, 2], false⟩ = true ∧
      check_slice_expr [4, 3, 2]
        (valid_slices [4, 3, 2]
          ⟨1, [.int_idx 2], true, 1, [.rng none (some 5) (some (-2))], [0, 2], false⟩) = true :=
  ⟨by decide,
    valid_slices_structurally_valid
      ⟨1, [.int_idx 2], true, 1, [.rng none (some 5) (some (-2))], [0, 2], false⟩
      (by decide)⟩
